import Mathlib

/-!
Verification of the Agent-Memory indexing core.

This file shallowly embeds the chunking, indexing, retrieval and folder
scanning logic of the repository (the `ChunkingService`, `MemoryService`
and `FolderIndexer` classes) and settles the frozen claims about it.

Modelling conventions:
* JavaScript strings processed character by character (the chunkers) are
  modelled as `List Char`; store-level string fields stay `String`.
* The external collaborators (embedding model, vector database search,
  JS regular-expression engine, `path.relative`, file enumeration and
  `stat`) are parameters of the embedded functions; the repository's own
  logic around them is translated line by line.
* Fallible asynchronous calls are modelled with `Except`; a mutating
  method returns the store state it leaves behind together with its
  result, and a raised error leaves exactly the mutations that were
  already issued at the point the error occurred, matching the await
  order in the source.
-/

/-- Model of the JavaScript whitespace test used by `String.trim`. -/
def isWS (c : Char) : Bool := c.isWhitespace

/-- Model of JavaScript `String.prototype.trim`: drop whitespace from
both ends. -/
def trimChars (cs : List Char) : List Char :=
  ((cs.dropWhile isWS).reverse.dropWhile isWS).reverse

/-- Model of JavaScript `text.split('\n')`: the list of lines, without
their terminating newline characters.  `split` on the empty string
yields one empty line, as in JavaScript. -/
def splitLines : List Char → List (List Char)
  | [] => [[]]
  | c :: cs =>
    if c = '\n' then [] :: splitLines cs
    else
      match splitLines cs with
      | [] => [[c]]
      | l :: ls => (c :: l) :: ls

/-- The accumulation loop of `_simpleChunk` (`ChunkingService._simpleChunk`
and the identical `MemoryService._simpleChunk`): fold the lines into a
current buffer, flushing the buffer as a chunk whenever appending the
next line would exceed `maxSize` and the buffer is non-empty.  Returns
the flushed chunks and the final buffer. -/
def chunkLines (maxSize : Nat) :
    List (List Char) → List (List Char) → List Char →
      List (List Char) × List Char
  | [], chunks, cur => (chunks, cur)
  | line :: rest, chunks, cur =>
    if cur.length + line.length > maxSize ∧ cur.length > 0 then
      chunkLines maxSize rest (chunks ++ [cur]) (line ++ ['\n'])
    else
      chunkLines maxSize rest chunks (cur ++ line ++ ['\n'])

/-- `_simpleChunk(text, maxSize)`: split into lines, greedily accumulate,
flush a final non-whitespace buffer, and fall back to `[text]` when no
chunk was produced. -/
def simpleChunk (text : List Char) (maxSize : Nat) : List (List Char) :=
  let p := chunkLines maxSize (splitLines text) [] []
  let chunks := if (trimChars p.2).length > 0 then p.1 ++ [p.2] else p.1
  if chunks.length > 0 then chunks else [text]

theorem splitLines_ne_nil (cs : List Char) : splitLines cs ≠ [] := by
  cases cs with
  | nil => simp [splitLines]
  | cons c cs =>
    by_cases h : c = '\n'
    · simp [splitLines, h]
    · simp only [splitLines, if_neg h]
      cases splitLines cs <;> simp

theorem join_splitLines (cs : List Char) :
    List.flatten ((splitLines cs).map (· ++ ['\n'])) = cs ++ ['\n'] := by
  induction cs with
  | nil => simp [splitLines]
  | cons c cs ih =>
    by_cases h : c = '\n'
    · subst h
      simp [splitLines, ih]
    · simp only [splitLines, if_neg h]
      rcases hs : splitLines cs with _ | ⟨l, ls⟩
      · exact absurd hs (splitLines_ne_nil cs)
      · rw [hs] at ih
        simpa using ih

theorem chunkLines_inv (maxSize : Nat) (lines : List (List Char))
    (chunks : List (List Char)) (cur : List Char) :
    List.flatten (chunkLines maxSize lines chunks cur).1 ++
      (chunkLines maxSize lines chunks cur).2 =
    List.flatten chunks ++ cur ++ List.flatten (lines.map (· ++ ['\n'])) := by
  induction lines generalizing chunks cur with
  | nil => simp [chunkLines]
  | cons line rest ih =>
    by_cases h : cur.length + line.length > maxSize ∧ cur.length > 0
    · simp only [chunkLines, if_pos h]
      rw [ih]
      simp [List.append_assoc]
    · simp only [chunkLines, if_neg h]
      rw [ih]
      simp [List.append_assoc]

theorem trimChars_eq_nil (cs : List Char) (h : trimChars cs = []) :
    ∀ c ∈ cs, isWS c := by
  unfold trimChars at h
  rw [List.reverse_eq_nil_iff, List.dropWhile_eq_nil_iff] at h
  have hdrop : ∀ c ∈ cs.dropWhile isWS, isWS c := by
    intro c hc
    exact h c (by simpa using hc)
  intro c hc
  rw [← List.takeWhile_append_dropWhile (p := isWS) (l := cs)] at hc
  rcases List.mem_append.mp hc with h1 | h2
  · exact List.mem_takeWhile_imp h1
  · exact hdrop c h2

/-- C3: concatenating the chunks of `_simpleChunk` preserves every
non-whitespace character of the input, in order: the appended newlines
and the possibly dropped trailing buffer are all whitespace. -/
theorem simpleChunk_preserves_nonws (text : List Char) (maxSize : Nat) :
    (List.flatten (simpleChunk text maxSize)).filter (fun c => !isWS c) =
      text.filter (fun c => !isWS c) := by
  unfold simpleChunk
  have hinv := chunkLines_inv maxSize (splitLines text) [] []
  rw [join_splitLines] at hinv
  simp only [List.flatten_nil, List.nil_append] at hinv
  set p := chunkLines maxSize (splitLines text) [] [] with hp
  by_cases hflush : (trimChars p.2).length > 0
  · -- the final buffer is flushed: the chunks join to `text ++ ['\n']`
    simp only [if_pos hflush]
    have hlen : (p.1 ++ [p.2]).length > 0 := by simp
    rw [if_pos hlen]
    rw [List.flatten_append]
    simp only [List.flatten_cons, List.flatten_nil, List.append_nil]
    rw [hinv, List.filter_append]
    simp [isWS]
  · -- the final buffer is whitespace-only and dropped
    simp only [if_neg hflush]
    have hws : ∀ c ∈ p.2, isWS c := by
      apply trimChars_eq_nil
      cases htr : trimChars p.2 with
      | nil => rfl
      | cons a l => rw [htr] at hflush; simp at hflush
    have hfcur : p.2.filter (fun c => !isWS c) = [] := by
      rw [List.filter_eq_nil_iff]
      intro a ha
      simp [hws a ha]
    by_cases hne : p.1.length > 0
    · rw [if_pos hne]
      have : (List.flatten p.1 ++ p.2).filter (fun c => !isWS c) =
          (text ++ ['\n']).filter (fun c => !isWS c) := by rw [hinv]
      rw [List.filter_append, hfcur, List.append_nil] at this
      rw [this, List.filter_append]
      simp [isWS]
    · rw [if_neg hne]
      simp

/-- A persisted vector-store record `{id, vector, text, filepath}`. -/
structure Record where
  id : String
  vector : List Int
  text : String
  filepath : String
deriving DecidableEq

/-- The sentinel record inserted by `MemoryService.init` to force table
creation: `{vector: Array(384).fill(0), text: "init", filepath: "init",
id: "0"}`. -/
def initRecord : Record :=
  { id := "0", vector := List.replicate 384 0, text := "init", filepath := "init" }

/-- The projection returned by `getFileChunks`. -/
structure FileChunk where
  id : String
  text : String
  filepath : String
deriving DecidableEq

/-- The projection returned by `getFileChunksWithVectors`. -/
structure FileChunkV where
  id : String
  text : String
  filepath : String
  vector : List Int
deriving DecidableEq

/-- `MemoryService.getFileChunks(filepath)`: query all records, keep those
whose `filepath` field equals the argument, project `{id, text, filepath}`. -/
def getFileChunks (store : List Record) (filepath : String) : List FileChunk :=
  (store.filter (fun r => r.filepath == filepath)).map
    (fun r => { id := r.id, text := r.text, filepath := r.filepath })

/-- `MemoryService.getFileChunksWithVectors(filepath)`: same filter, also
projecting the vector. -/
def getFileChunksWithVectors (store : List Record) (filepath : String) :
    List FileChunkV :=
  (store.filter (fun r => r.filepath == filepath)).map
    (fun r => { id := r.id, text := r.text, filepath := r.filepath, vector := r.vector })

/-- Squared euclidean distance, the similarity model for the external
vector database's nearest-neighbor query. -/
def sqDist (v w : List Int) : Int :=
  (List.zipWith (fun a b => (a - b) * (a - b)) v w).sum

/-- Insert a record into a distance-sorted list (stable). -/
def insertByDist (qv : List Int) (r : Record) : List Record → List Record
  | [] => [r]
  | s :: rest =>
    if sqDist r.vector qv < sqDist s.vector qv then r :: s :: rest
    else s :: insertByDist qv r rest

/-- Rank the whole table by distance to the query vector: the model of
`table.search(vector)` over the external store. -/
def rankByDist (qv : List Int) : List Record → List Record
  | [] => []
  | r :: rest => insertByDist qv r (rankByDist qv rest)

/-- `table.search(queryVector).limit(limit).toArray()`: the `limit`
nearest records of the full table. -/
def searchTable (store : List Record) (qv : List Int) (limit : Nat) :
    List Record :=
  (rankByDist qv store).take limit

/-- `MemoryService.search(query, limit)`: embed the query, then ask the
store for the `limit` nearest records.  No filtering is applied to the
results. -/
def search (embed : String → Except ε (List Int)) (store : List Record)
    (query : String) (limit : Nat) : Except ε (List Record) :=
  match embed query with
  | .error e => .error e
  | .ok qv => .ok (searchTable store qv limit)

/-- `MemoryService.clearAllIndexes()`: collect the ids of all records
whose `filepath` differs from `"init"`, then delete each collected id
with one `id = '...'` predicate deletion. -/
def clearAllIndexes (store : List Record) : List Record :=
  let idsToDelete :=
    (store.filter (fun r => r.filepath != "init")).map (fun r => r.id)
  if idsToDelete.length > 0 then
    idsToDelete.foldl (fun st i => st.filter (fun x => x.id != i)) store
  else
    store

/-- The reverse scan of Node's posix `path.dirname`: walking indices
`len-1, ..., 1`, skip trailing slashes, then report the index of the
first slash that follows a non-slash character. -/
def dirnameLoop (s : List Char) : Nat → Bool → Option Nat
  | 0, _ => none
  | i + 1, matchedSlash =>
    if s.getD (i + 1) ' ' = '/' then
      if !matchedSlash then some (i + 1)
      else dirnameLoop s i matchedSlash
    else dirnameLoop s i false

/-- Node `path.dirname` (posix): the directory component of a path. -/
def dirname (p : String) : String :=
  let s := p.data
  if s.length = 0 then "."
  else
    let hasRoot := s.getD 0 ' ' = '/'
    match dirnameLoop s (s.length - 1) true with
    | none => if hasRoot then "/" else "."
    | some e => if hasRoot ∧ e = 1 then "//" else String.mk (s.take e)

/-- `MemoryService.deleteFolderIndex(folderPath)`: filter to records whose
filepath's `dirname` equals `folderPath` exactly, delete each by id, and
return the count of filtered records. -/
def deleteFolderIndex (store : List Record) (folderPath : String) :
    List Record × Nat :=
  let filesToDelete :=
    store.filter (fun r => dirname r.filepath == folderPath)
  (filesToDelete.foldl (fun st r => st.filter (fun x => x.id != r.id)) store,
   filesToDelete.length)

theorem foldl_deleteById (ids : List String) (store : List Record) :
    ids.foldl (fun st i => st.filter (fun x => x.id != i)) store =
      store.filter (fun x => !(ids.contains x.id)) := by
  induction ids generalizing store with
  | nil => simp
  | cons i ids ih =>
    simp only [List.foldl_cons, ih, List.filter_filter]
    apply List.filter_congr
    intro x _
    simp only [List.contains_cons, Bool.not_or, bne]
    rw [Bool.and_comm]

theorem foldl_deleteByRecordId (ds : List Record) (store : List Record) :
    ds.foldl (fun st r => st.filter (fun x => x.id != r.id)) store =
      store.filter (fun x => !((ds.map (fun r => r.id)).contains x.id)) := by
  induction ds generalizing store with
  | nil => simp
  | cons d ds ih =>
    rw [List.foldl_cons, ih]
    simp only [List.filter_filter, List.map_cons,
      List.contains_cons, Bool.not_or, bne]
    apply List.filter_congr
    intro x _
    rw [Bool.and_comm]

theorem contains_filter_ids (store : List Record) (q : Record → Bool)
    (h : (store.map (fun r => r.id)).Nodup) (x : Record) (hx : x ∈ store) :
    ((store.filter q).map (fun r => r.id)).contains x.id = q x := by
  by_cases hq : q x = true
  · rw [hq]
    exact List.contains_iff_exists_mem_beq.mpr
      ⟨x.id, List.mem_map.mpr ⟨x, List.mem_filter.mpr ⟨hx, hq⟩, rfl⟩, by simp⟩
  · rw [Bool.not_eq_true] at hq
    rw [hq]
    by_contra hc
    rw [Bool.not_eq_false] at hc
    obtain ⟨i, hi, hbeq⟩ := List.contains_iff_exists_mem_beq.mp hc
    obtain ⟨y, hy, hyid⟩ := List.mem_map.mp hi
    obtain ⟨hyst, hyq⟩ := List.mem_filter.mp hy
    have hidxy : y.id = x.id := by
      rw [hyid]
      exact (beq_iff_eq.mp hbeq).symm
    have hxy : y = x := List.inj_on_of_nodup_map h hyst hx hidxy
    rw [hxy] at hyq
    rw [hyq] at hq
    simp at hq

/-- C10: `clearAllIndexes` keeps exactly the records whose `filepath` is
the literal string `"init"`, because it selects deletions by the test
`filepath != 'init'` rather than by the sentinel's id; a user record with
filepath `"init"` survives (assuming the store invariant of unique ids). -/
theorem clearAllIndexes_init_filepath (store : List Record)
    (h : (store.map (fun r => r.id)).Nodup) :
    clearAllIndexes store = store.filter (fun r => r.filepath == "init") := by
  unfold clearAllIndexes
  by_cases hlen :
      ((store.filter (fun r => r.filepath != "init")).map (fun r => r.id)).length > 0
  · rw [if_pos hlen, foldl_deleteById]
    apply List.filter_congr
    intro x hx
    rw [contains_filter_ids store _ h x hx]
    simp [bne]
  · rw [if_neg hlen]
    symm
    rw [List.filter_eq_self]
    intro a ha
    have hz : ((store.filter (fun r => r.filepath != "init")).map
        (fun r => r.id)).length = 0 := by omega
    rw [List.length_eq_zero, List.map_eq_nil_iff, List.filter_eq_nil_iff] at hz
    have := hz a ha
    simpa [bne] using this

theorem clearAllIndexes_init_filepath_witness :
    clearAllIndexes
      [initRecord,
       { id := "a1", vector := [1], text := "ca", filepath := "/proj/a.ts" },
       { id := "b1", vector := [2], text := "cb", filepath := "init" }] =
      [initRecord,
       { id := "b1", vector := [2], text := "cb", filepath := "init" }] := by
  rw [clearAllIndexes_init_filepath _ (by decide)]
  rfl

/-- C8: `deleteFolderIndex` removes exactly the records whose filepath's
directory component equals `folderPath` by exact string comparison and
returns their count; records in strict subfolders have a different
`dirname` and survive (assuming the store invariant of unique ids). -/
theorem deleteFolderIndex_exact (store : List Record) (folderPath : String)
    (h : (store.map (fun r => r.id)).Nodup) :
    deleteFolderIndex store folderPath =
      (store.filter (fun r => !(dirname r.filepath == folderPath)),
       (store.filter (fun r => dirname r.filepath == folderPath)).length) := by
  unfold deleteFolderIndex
  simp only [Prod.mk.injEq]
  refine ⟨?_, trivial⟩
  rw [foldl_deleteByRecordId]
  apply List.filter_congr
  intro x hx
  rw [contains_filter_ids store _ h x hx]

theorem deleteFolderIndex_exact_witness :
    deleteFolderIndex
      [{ id := "1", vector := [0], text := "t1", filepath := "src/a.ts" },
       { id := "2", vector := [0], text := "t2", filepath := "src/sub/b.ts" },
       { id := "3", vector := [0], text := "t3", filepath := "src/c.ts" }] "src" =
      ([{ id := "2", vector := [0], text := "t2", filepath := "src/sub/b.ts" }], 2) := by
  rw [deleteFolderIndex_exact _ _ (by decide)]
  rfl

/-- C6 counterexample: `getFileChunks` applies no sentinel exclusion, so
for the argument `"init"` the sentinel record is among the returned
chunks. -/
theorem getFileChunks_returns_sentinel :
    getFileChunks [initRecord] "init" =
      [{ id := "0", text := "init", filepath := "init" }] := by rfl

/-- C6 amended: `getFileChunks` and `getFileChunksWithVectors` return
exactly the records whose `filepath` equals the argument by exact string
comparison, with no sentinel exclusion; the sentinel is absent only when
the argument differs from its filepath `"init"`. -/
theorem getFileChunks_exact_filepath (store : List Record) (fp : String) :
    (∀ c ∈ getFileChunks store fp, c.filepath = fp) ∧
    (∀ c ∈ getFileChunksWithVectors store fp, c.filepath = fp) ∧
    (∀ r ∈ store, r.filepath = fp →
      ({ id := r.id, text := r.text, filepath := r.filepath } : FileChunk) ∈
        getFileChunks store fp) ∧
    (∀ r ∈ store, r.filepath = fp →
      ({ id := r.id, text := r.text, filepath := r.filepath,
         vector := r.vector } : FileChunkV) ∈
        getFileChunksWithVectors store fp) := by
  refine ⟨?_, ?_, ?_, ?_⟩
  · intro c hc
    obtain ⟨r, hr, hpr⟩ := List.mem_map.mp hc
    obtain ⟨-, hrf⟩ := List.mem_filter.mp hr
    rw [← hpr]
    exact beq_iff_eq.mp hrf
  · intro c hc
    obtain ⟨r, hr, hpr⟩ := List.mem_map.mp hc
    obtain ⟨-, hrf⟩ := List.mem_filter.mp hr
    rw [← hpr]
    exact beq_iff_eq.mp hrf
  · intro r hr hfp
    exact List.mem_map.mpr
      ⟨r, List.mem_filter.mpr ⟨hr, beq_iff_eq.mpr hfp⟩, rfl⟩
  · intro r hr hfp
    exact List.mem_map.mpr
      ⟨r, List.mem_filter.mpr ⟨hr, beq_iff_eq.mpr hfp⟩, rfl⟩

theorem getFileChunks_exact_filepath_witness :
    ({ id := "a1", text := "ca", filepath := "/p/a.ts" } : FileChunk) ∈
      getFileChunks
        [initRecord,
         { id := "a1", vector := [1], text := "ca", filepath := "/p/a.ts" }]
        "/p/a.ts" :=
  (getFileChunks_exact_filepath
      [initRecord,
       { id := "a1", vector := [1], text := "ca", filepath := "/p/a.ts" }]
      "/p/a.ts").2.2.1
    { id := "a1", vector := [1], text := "ca", filepath := "/p/a.ts" }
    (by decide) (by decide)

theorem insertByDist_length (qv : List Int) (r : Record) (l : List Record) :
    (insertByDist qv r l).length = l.length + 1 := by
  induction l with
  | nil => rfl
  | cons s rest ih =>
    unfold insertByDist
    by_cases h : sqDist r.vector qv < sqDist s.vector qv
    · rw [if_pos h]; rfl
    · rw [if_neg h]
      simp [ih]

theorem mem_insertByDist (qv : List Int) (r : Record) (l : List Record)
    (x : Record) (hx : x ∈ insertByDist qv r l) : x = r ∨ x ∈ l := by
  induction l with
  | nil => simpa [insertByDist] using hx
  | cons s rest ih =>
    unfold insertByDist at hx
    by_cases h : sqDist r.vector qv < sqDist s.vector qv
    · rw [if_pos h] at hx
      rcases List.mem_cons.mp hx with h1 | h2
      · exact Or.inl h1
      · exact Or.inr h2
    · rw [if_neg h] at hx
      rcases List.mem_cons.mp hx with h1 | h2
      · subst h1
        exact Or.inr (List.mem_cons_self _ _)
      · rcases ih h2 with h3 | h4
        · exact Or.inl h3
        · exact Or.inr (List.mem_cons_of_mem _ h4)

theorem rankByDist_length (qv : List Int) (l : List Record) :
    (rankByDist qv l).length = l.length := by
  induction l with
  | nil => rfl
  | cons r rest ih =>
    unfold rankByDist
    rw [insertByDist_length, ih]
    simp

theorem mem_rankByDist (qv : List Int) (l : List Record) (x : Record)
    (hx : x ∈ rankByDist qv l) : x ∈ l := by
  induction l with
  | nil => simp [rankByDist] at hx
  | cons r rest ih =>
    unfold rankByDist at hx
    rcases mem_insertByDist qv r _ x hx with h1 | h2
    · rw [h1]; exact List.mem_cons_self _ _
    · exact List.mem_cons_of_mem _ (ih h2)

/-- C7 counterexample: `search` filters nothing out of the store's
nearest-neighbor results, so with the table holding only the sentinel the
result sequence is exactly the sentinel record. -/
theorem search_returns_sentinel :
    search (fun _ => (Except.ok (List.replicate 384 0) : Except Unit (List Int)))
      [initRecord] "query" 3 = Except.ok [initRecord] := by rfl

/-- C7 amended: `search` returns the `limit` nearest records of the full
table with no sentinel exclusion: when the query embeds successfully the
result holds `min limit store.length` records, each drawn from the full
record set (hence the sentinel appears whenever it is among the nearest
`limit` records). -/
theorem search_full_table {ε : Type} (embed : String → Except ε (List Int))
    (store : List Record) (query : String) (limit : Nat) (qv : List Int)
    (h : embed query = Except.ok qv) :
    ∃ l, search embed store query limit = Except.ok l ∧
      l.length = min limit store.length ∧ ∀ r ∈ l, r ∈ store := by
  refine ⟨searchTable store qv limit, ?_, ?_, ?_⟩
  · unfold search
    rw [h]
  · unfold searchTable
    rw [List.length_take, rankByDist_length]
  · intro r hr
    exact mem_rankByDist qv store r (List.mem_of_mem_take hr)

theorem search_full_table_witness :
    ∃ l, search (fun _ => (Except.ok [0] : Except Unit (List Int)))
        [initRecord] "q" 2 = Except.ok l ∧
      l.length = min 2 [initRecord].length ∧ ∀ r ∈ l, r ∈ [initRecord] :=
  search_full_table _ [initRecord] "q" 2 [0] rfl

/-- `_simpleChunk` lifted back to `String`, the form in which the
fallback chunker feeds `addDocument`. -/
def simpleChunkS (t : String) (maxSize : Nat) : List String :=
  (simpleChunk t.data maxSize).map String.mk

/-- The embed-and-collect loop of `addDocument`: chunks whose trimmed
text is empty are skipped; each surviving chunk is embedded (in order,
one at a time) and becomes a record with the next fresh id; the first
embedding error aborts the whole loop, as the awaited promise rejection
does in the source. -/
def buildRecords (embed : String → Except ε (List Int)) (ids : Nat → String)
    (filepath : String) : List String → Nat → Except ε (List Record)
  | [], _ => .ok []
  | chunk :: rest, k =>
    if (trimChars chunk.data).length = 0 then
      buildRecords embed ids filepath rest k
    else
      match embed chunk with
      | .error e => .error e
      | .ok v =>
        match buildRecords embed ids filepath rest (k + 1) with
        | .error e => .error e
        | .ok rs =>
          .ok ({ id := ids k, vector := v, text := chunk,
                 filepath := filepath } :: rs)

/-- `MemoryService.addDocument(text, filepath, languageId?)`.  Returns
the store state after the call together with the outcome (the
`chunksCreated` count, or the propagated embedding error).  `chunksFor`
is the chunking path selected by the `languageId` test (structural
chunker for supported languages, `_simpleChunk` fallback otherwise);
`ids` supplies the fresh uuids.  The single `table.add` happens after
the whole embedding loop, so an error outcome leaves the store argument
untouched. -/
def addDocument (embed : String → Except ε (List Int)) (ids : Nat → String)
    (chunksFor : String → List String) (store : List Record)
    (text filepath : String) : List Record × Except ε Nat :=
  if (trimChars text.data).length = 0 then (store, .ok 0)
  else
    match buildRecords embed ids filepath (chunksFor text) 0 with
    | .error e => (store, .error e)
    | .ok records =>
      (if records.length > 0 then store ++ records else store,
       .ok records.length)

theorem buildRecords_error {ε : Type} (embed : String → Except ε (List Int))
    (ids : Nat → String) (filepath : String) (chunks : List String) (k : Nat)
    (h : ∃ c ∈ chunks, trimChars c.data ≠ [] ∧ ∃ e, embed c = .error e) :
    ∃ e, buildRecords embed ids filepath chunks k = .error e := by
  induction chunks generalizing k with
  | nil =>
    obtain ⟨c, hc, -⟩ := h
    exact absurd hc (List.not_mem_nil c)
  | cons c0 rest ih =>
    obtain ⟨c, hc, htrim, e, he⟩ := h
    unfold buildRecords
    by_cases h0 : (trimChars c0.data).length = 0
    · rw [if_pos h0]
      apply ih
      rcases List.mem_cons.mp hc with h1 | h2
      · rw [h1] at htrim
        exact absurd (List.length_eq_zero.mp h0) htrim
      · exact ⟨c, h2, htrim, e, he⟩
    · rw [if_neg h0]
      cases hec : embed c0 with
      | error e0 => exact ⟨e0, rfl⟩
      | ok v =>
        have hcc : c ∈ rest := by
          rcases List.mem_cons.mp hc with h1 | h2
          · rw [h1] at he
            rw [he] at hec
            cases hec
          · exact h2
        obtain ⟨e1, he1⟩ := ih (k + 1) ⟨c, hcc, htrim, e, he⟩
        exact ⟨e1, by rw [he1]⟩

/-- C1: if the embedding service rejects any surviving (non-whitespace)
chunk of a non-blank document, `addDocument` propagates an error and the
store is exactly what it was before the call: the single store insert is
issued only after every chunk of the document has been embedded, so no
insert is ever reached on the error path. -/
theorem addDocument_embed_error {ε : Type} (embed : String → Except ε (List Int))
    (ids : Nat → String) (chunksFor : String → List String)
    (store : List Record) (text filepath : String)
    (htext : trimChars text.data ≠ [])
    (h : ∃ c ∈ chunksFor text, trimChars c.data ≠ [] ∧ ∃ e, embed c = .error e) :
    (addDocument embed ids chunksFor store text filepath).1 = store ∧
      ∃ e, (addDocument embed ids chunksFor store text filepath).2 =
        .error e := by
  unfold addDocument
  have hlen : ¬((trimChars text.data).length = 0) := fun hz =>
    htext (List.length_eq_zero.mp hz)
  rw [if_neg hlen]
  obtain ⟨e, he⟩ := buildRecords_error embed ids filepath (chunksFor text) 0 h
  rw [he]
  exact ⟨rfl, e, rfl⟩

theorem addDocument_embed_error_witness :
    (addDocument (fun _ => (Except.error 7 : Except Nat (List Int)))
        (fun _ => "uuid") (fun t => simpleChunkS t 500)
        [initRecord] "let x = 1" "/f.ts").1 = [initRecord] ∧
      ∃ e, (addDocument (fun _ => (Except.error 7 : Except Nat (List Int)))
        (fun _ => "uuid") (fun t => simpleChunkS t 500)
        [initRecord] "let x = 1" "/f.ts").2 = .error e :=
  addDocument_embed_error _ _ _ _ _ _ (by decide)
    ⟨"let x = 1\n", by decide, by decide, 7, rfl⟩

/-- C9: empty or whitespace-only text short-circuits `addDocument` to
`chunksCreated = 0` with the store untouched, for every embedding
service, id supply and chunking path — so neither collaborator is
consulted. -/
theorem addDocument_blank_noop {ε : Type} (embed : String → Except ε (List Int))
    (ids : Nat → String) (chunksFor : String → List String)
    (store : List Record) (text filepath : String)
    (h : trimChars text.data = []) :
    addDocument embed ids chunksFor store text filepath =
      (store, Except.ok 0) := by
  unfold addDocument
  rw [h]
  simp

theorem addDocument_blank_noop_witness :
    addDocument (fun _ => (Except.error () : Except Unit (List Int)))
      (fun _ => "uuid") (fun t => simpleChunkS t 500)
      [initRecord] "  \n " "/f.ts" = ([initRecord], Except.ok 0) :=
  addDocument_blank_noop _ _ _ _ _ _ (by decide)

/-- A parsed syntax-tree node as tree-sitter presents it: its node type,
its source text, and its children in source order. -/
inductive TSNode where
  | node (type : String) (text : String) (children : List TSNode)

/-- The fixed block set of `_visitNode`:
`['function_declaration', 'class_declaration', 'method_definition']`. -/
def blockTypes : List String :=
  ["function_declaration", "class_declaration", "method_definition"]

mutual
/-- `ChunkingService._visitNode(node, chunks, maxSize)`: a block node
whose text fits in `maxSize` is emitted whole and not descended into;
otherwise a node with children is decomposed child by child; a childless
node is emitted when its trimmed text is non-empty. -/
def visitNode (maxSize : Nat) : TSNode → List String → List String
  | TSNode.node ty tx ch, chunks =>
    if blockTypes.contains ty ∧ tx.length ≤ maxSize then chunks ++ [tx]
    else if ch.length > 0 then visitChildren maxSize ch chunks
    else if (trimChars tx.data).length > 0 then chunks ++ [tx]
    else chunks

/-- The `for (const child of node.children)` loop of `_visitNode`. -/
def visitChildren (maxSize : Nat) : List TSNode → List String → List String
  | [], chunks => chunks
  | n :: ns, chunks => visitChildren maxSize ns (visitNode maxSize n chunks)
end

/-- C4: a node whose syntactic category is in the block set and whose
source text length is at most `maxSize` is emitted as exactly one chunk
equal to its full source text, appended to the accumulated chunks; its
children are never visited, so sibling blocks are never merged. -/
theorem visitNode_block_whole (maxSize : Nat) (ty tx : String)
    (ch : List TSNode) (chunks : List String)
    (h1 : blockTypes.contains ty = true) (h2 : tx.length ≤ maxSize) :
    visitNode maxSize (TSNode.node ty tx ch) chunks = chunks ++ [tx] := by
  unfold visitNode
  rw [if_pos ⟨h1, h2⟩]

theorem visitNode_block_whole_witness :
    visitNode 500
      (TSNode.node "function_declaration" "function foo(){ return 1; }"
        [TSNode.node "identifier" "foo" []]) [] =
      ["function foo(){ return 1; }"] :=
  visitNode_block_whole 500 _ _ _ _ (by decide) (by decide)

/-- The recognized indexing configuration (`IndexingOptions`). -/
structure IndexingOptions where
  maxFileSize : Nat
  excludePatterns : List String
  includeExtensions : List String
  maxFiles : Nat

/-- `FolderIndexer.matchesPattern(filePath, basePath, pattern)`: compute
the path relative to the base, translate the glob into a regular
expression (`**` is replaced by `.*` first, then every remaining `*` —
including the one just introduced — by `[^/]*`), and test it.  The Node
primitives `RegExp.test` and `path.relative` are external collaborators
and are passed in as parameters. -/
def matchesPattern (regexTest : String → String → Bool)
    (pathRelative : String → String → String)
    (filePath basePath pattern : String) : Bool :=
  let relativePath := pathRelative basePath filePath
  let normalizedPattern := (pattern.replace "**" ".*").replace "*" "[^/]*"
  regexTest normalizedPattern relativePath

/-- The `for (const uri of foundFiles)` body of `getFilesToIndex`: skip
excluded files, skip files whose size cannot be determined or exceeds
`maxFileSize`, collect the rest, and break as soon as the accepted list
reaches `maxFiles` (the check runs only after an accept). -/
def addFound (excludeTest : String → Bool) (stat : String → Option Nat)
    (maxFileSize maxFiles : Nat) :
    List String → List String → List String
  | [], files => files
  | fp :: rest, files =>
    if excludeTest fp then
      addFound excludeTest stat maxFileSize maxFiles rest files
    else
      match stat fp with
      | none => addFound excludeTest stat maxFileSize maxFiles rest files
      | some size =>
        if size > maxFileSize then
          addFound excludeTest stat maxFileSize maxFiles rest files
        else
          let files2 := files ++ [fp]
          if files2.length ≥ maxFiles then files2
          else addFound excludeTest stat maxFileSize maxFiles rest files2

/-- The `for (const ext of opts.includeExtensions)` loop of
`getFilesToIndex`, with the outer `maxFiles` break after each
extension. -/
def scanExts (findFiles : String → List String) (excludeTest : String → Bool)
    (stat : String → Option Nat) (maxFileSize maxFiles : Nat) :
    List String → List String → List String
  | [], files => files
  | ext :: rest, files =>
    let files2 := addFound excludeTest stat maxFileSize maxFiles
      (findFiles ("**/*" ++ ext)) files
    if files2.length ≥ maxFiles then files2
    else scanExts findFiles excludeTest stat maxFileSize maxFiles rest files2

/-- `FolderIndexer.getFilesToIndex(folderPath, options)`: enumerate
files extension by extension through the external `findFiles`, dropping
files matching a translated exclude glob and files whose stat fails or
reports a size above `maxFileSize`, stopping at `maxFiles`.  The merge
of workspace settings into the options happens before this model:
`opts` is the merged configuration. -/
def getFilesToIndex (findFiles : String → List String)
    (stat : String → Option Nat) (regexTest : String → String → Bool)
    (pathRelative : String → String → String)
    (folderPath : String) (opts : IndexingOptions) : List String :=
  scanExts findFiles
    (fun fp => opts.excludePatterns.any
      (fun pattern => matchesPattern regexTest pathRelative fp folderPath pattern))
    stat opts.maxFileSize opts.maxFiles opts.includeExtensions []

theorem addFound_length_le (excludeTest : String → Bool)
    (stat : String → Option Nat) (maxFileSize maxFiles : Nat)
    (found files : List String) (h : files.length < maxFiles) :
    (addFound excludeTest stat maxFileSize maxFiles found files).length ≤
      maxFiles := by
  induction found generalizing files with
  | nil => exact Nat.le_of_lt h
  | cons fp rest ih =>
    unfold addFound
    by_cases he : excludeTest fp = true
    · rw [if_pos he]
      exact ih files h
    · rw [if_neg he]
      cases hst : stat fp with
      | none => exact ih files h
      | some size =>
        dsimp only
        by_cases hs : size > maxFileSize
        · rw [if_pos hs]
          exact ih files h
        · rw [if_neg hs]
          by_cases hb : (files ++ [fp]).length ≥ maxFiles
          · rw [if_pos hb]
            simp only [List.length_append, List.length_cons, List.length_nil]
            omega
          · rw [if_neg hb]
            apply ih
            omega

theorem addFound_mem (excludeTest : String → Bool)
    (stat : String → Option Nat) (maxFileSize maxFiles : Nat)
    (found files : List String) (f : String)
    (hf : f ∈ addFound excludeTest stat maxFileSize maxFiles found files) :
    f ∈ files ∨ (excludeTest f = false ∧
      ∃ sz, stat f = some sz ∧ sz ≤ maxFileSize) := by
  induction found generalizing files with
  | nil => exact Or.inl hf
  | cons fp rest ih =>
    unfold addFound at hf
    by_cases he : excludeTest fp = true
    · rw [if_pos he] at hf
      exact ih files hf
    · rw [if_neg he] at hf
      rw [Bool.not_eq_true] at he
      cases hst : stat fp with
      | none =>
        rw [hst] at hf
        exact ih files hf
      | some size =>
        rw [hst] at hf
        dsimp only at hf
        by_cases hs : size > maxFileSize
        · rw [if_pos hs] at hf
          exact ih files hf
        · rw [if_neg hs] at hf
          rw [Nat.not_lt] at hs
          by_cases hb : (files ++ [fp]).length ≥ maxFiles
          · rw [if_pos hb] at hf
            rcases List.mem_append.mp hf with h1 | h2
            · exact Or.inl h1
            · have hffp : f = fp := by simpa using h2
              rw [hffp]
              exact Or.inr ⟨he, size, hst, hs⟩
          · rw [if_neg hb] at hf
            rcases ih (files ++ [fp]) hf with h1 | h2
            · rcases List.mem_append.mp h1 with ha | hb2
              · exact Or.inl ha
              · have hffp : f = fp := by simpa using hb2
                rw [hffp]
                exact Or.inr ⟨he, size, hst, hs⟩
            · exact Or.inr h2

theorem scanExts_length_le (findFiles : String → List String)
    (excludeTest : String → Bool) (stat : String → Option Nat)
    (maxFileSize maxFiles : Nat) (exts files : List String)
    (h : files.length < maxFiles) :
    (scanExts findFiles excludeTest stat maxFileSize maxFiles exts
      files).length ≤ maxFiles := by
  induction exts generalizing files with
  | nil => exact Nat.le_of_lt h
  | cons ext rest ih =>
    unfold scanExts
    by_cases hb : (addFound excludeTest stat maxFileSize maxFiles
        (findFiles ("**/*" ++ ext)) files).length ≥ maxFiles
    · rw [if_pos hb]
      exact addFound_length_le excludeTest stat maxFileSize maxFiles _ files h
    · rw [if_neg hb]
      apply ih
      omega

theorem scanExts_mem (findFiles : String → List String)
    (excludeTest : String → Bool) (stat : String → Option Nat)
    (maxFileSize maxFiles : Nat) (exts files : List String) (f : String)
    (hf : f ∈ scanExts findFiles excludeTest stat maxFileSize maxFiles
      exts files) :
    f ∈ files ∨ (excludeTest f = false ∧
      ∃ sz, stat f = some sz ∧ sz ≤ maxFileSize) := by
  induction exts generalizing files with
  | nil => exact Or.inl hf
  | cons ext rest ih =>
    unfold scanExts at hf
    by_cases hb : (addFound excludeTest stat maxFileSize maxFiles
        (findFiles ("**/*" ++ ext)) files).length ≥ maxFiles
    · rw [if_pos hb] at hf
      exact addFound_mem excludeTest stat maxFileSize maxFiles _ files f hf
    · rw [if_neg hb] at hf
      rcases ih _ hf with h1 | h2
      · exact addFound_mem excludeTest stat maxFileSize maxFiles _ files f h1
      · exact Or.inr h2

theorem getFilesToIndex_length_le (findFiles : String → List String)
    (stat : String → Option Nat) (regexTest : String → String → Bool)
    (pathRelative : String → String → String)
    (folderPath : String) (opts : IndexingOptions)
    (h : 1 ≤ opts.maxFiles) :
    (getFilesToIndex findFiles stat regexTest pathRelative folderPath
      opts).length ≤ opts.maxFiles := by
  unfold getFilesToIndex
  apply scanExts_length_le
  simpa using h

/-- C2 amended: for all external primitives and options, every returned
file has a determinable stat size within `maxFileSize` and matches no
translated exclude glob; the returned list has at most `maxFiles`
entries provided `maxFiles ≥ 1` (with `maxFiles = 0` one accepted file
is still returned, because the cap is checked only after an accept). -/
theorem getFilesToIndex_bounds (findFiles : String → List String)
    (stat : String → Option Nat) (regexTest : String → String → Bool)
    (pathRelative : String → String → String)
    (folderPath : String) (opts : IndexingOptions) :
    (1 ≤ opts.maxFiles →
      (getFilesToIndex findFiles stat regexTest pathRelative folderPath
        opts).length ≤ opts.maxFiles) ∧
    (∀ f ∈ getFilesToIndex findFiles stat regexTest pathRelative folderPath
        opts,
      (∃ sz, stat f = some sz ∧ sz ≤ opts.maxFileSize) ∧
      opts.excludePatterns.any
        (fun pattern =>
          matchesPattern regexTest pathRelative f folderPath pattern) =
        false) := by
  constructor
  · intro h1
    exact getFilesToIndex_length_le findFiles stat regexTest pathRelative
      folderPath opts h1
  · intro f hf
    unfold getFilesToIndex at hf
    rcases scanExts_mem _ _ _ _ _ _ _ _ hf with h1 | h2
    · exact absurd h1 (List.not_mem_nil f)
    · exact ⟨h2.2, h2.1⟩

theorem getFilesToIndex_bounds_witness :
    (getFilesToIndex (fun _ => ["a.ts", "b.ts", "c.ts"]) (fun _ => some 10)
      (fun _ _ => false) (fun _ p => p) "/root"
      { maxFileSize := 1000, excludePatterns := [],
        includeExtensions := [".ts"], maxFiles := 2 }).length ≤ 2 :=
  (getFilesToIndex_bounds (fun _ => ["a.ts", "b.ts", "c.ts"])
    (fun _ => some 10) (fun _ _ => false) (fun _ p => p) "/root"
    { maxFileSize := 1000, excludePatterns := [],
      includeExtensions := [".ts"], maxFiles := 2 }).1 (by decide)

/-- C2 counterexample: with `maxFiles = 0` the scan still returns one
accepted file, because the `files.length >= opts.maxFiles` break runs
only after the file has been pushed; so the result exceeds `maxFiles`. -/
theorem getFilesToIndex_maxFiles_zero :
    getFilesToIndex (fun _ => ["a.ts"]) (fun _ => some 10)
      (fun _ _ => false) (fun _ p => p) "/root"
      { maxFileSize := 1000, excludePatterns := [],
        includeExtensions := [".ts"], maxFiles := 0 } = ["a.ts"] := by rfl

/-- The branch taken by `validateIndexingOperation` (the free-text size
estimate of the valid branch is external floating-point formatting; the
model keeps the branch tag and the counts the branch reports). -/
inductive VMessage where
  | noFiles
  | tooMany (found maximum : Nat)
  | ready (found : Nat)
deriving DecidableEq

/-- Result shape of `validateIndexingOperation`. -/
structure ValidationResult where
  valid : Bool
  message : VMessage
  fileCount : Nat
deriving DecidableEq

/-- `FolderIndexer.validateIndexingOperation(folderPath, options)`:
scan, then report invalid when the scan returned nothing, invalid with a
too-many-files message when the scan returned more than `maxFiles`
entries, and valid with the scanned count otherwise. -/
def validateIndexingOperation (findFiles : String → List String)
    (stat : String → Option Nat) (regexTest : String → String → Bool)
    (pathRelative : String → String → String)
    (folderPath : String) (opts : IndexingOptions) : ValidationResult :=
  let files :=
    getFilesToIndex findFiles stat regexTest pathRelative folderPath opts
  if files.length = 0 then
    { valid := false, message := .noFiles, fileCount := 0 }
  else if files.length > opts.maxFiles then
    { valid := false, message := .tooMany files.length opts.maxFiles,
      fileCount := files.length }
  else
    { valid := true, message := .ready files.length,
      fileCount := files.length }

/-- C5 amended: because `getFilesToIndex` caps its result at `maxFiles`,
the too-many-files branch of `validateIndexingOperation` is unreachable
whenever `maxFiles ≥ 1`: if the scan returns anything at all, the
operation validates with the capped count as `fileCount`, even when more
files qualify than `maxFiles`. -/
theorem validate_never_too_many (findFiles : String → List String)
    (stat : String → Option Nat) (regexTest : String → String → Bool)
    (pathRelative : String → String → String)
    (folderPath : String) (opts : IndexingOptions)
    (h1 : 1 ≤ opts.maxFiles)
    (h2 : getFilesToIndex findFiles stat regexTest pathRelative folderPath
      opts ≠ []) :
    validateIndexingOperation findFiles stat regexTest pathRelative
      folderPath opts =
    { valid := true,
      message := .ready (getFilesToIndex findFiles stat regexTest
        pathRelative folderPath opts).length,
      fileCount := (getFilesToIndex findFiles stat regexTest pathRelative
        folderPath opts).length } := by
  unfold validateIndexingOperation
  have hlen : ¬((getFilesToIndex findFiles stat regexTest pathRelative
      folderPath opts).length = 0) := fun hz =>
    h2 (List.length_eq_zero.mp hz)
  have hcap := getFilesToIndex_length_le findFiles stat regexTest
    pathRelative folderPath opts h1
  rw [if_neg hlen, if_neg (Nat.not_lt.mpr hcap)]

theorem validate_never_too_many_witness :
    validateIndexingOperation (fun _ => ["a.ts"]) (fun _ => some 10)
      (fun _ _ => false) (fun _ p => p) "/root"
      { maxFileSize := 1000, excludePatterns := [],
        includeExtensions := [".ts"], maxFiles := 5 } =
    { valid := true, message := .ready 1, fileCount := 1 } := by
  rw [validate_never_too_many (fun _ => ["a.ts"]) (fun _ => some 10)
    (fun _ _ => false) (fun _ p => p) "/root"
    { maxFileSize := 1000, excludePatterns := [],
      includeExtensions := [".ts"], maxFiles := 5 }
    (by decide) (by decide)]
  rfl

/-- C5 counterexample: three files qualify (the same scan with
`maxFiles = 3` returns all three), yet with `maxFiles = 2` the scan caps
its result at two files and `validateIndexingOperation` reports
`valid = true` with `fileCount = 2` — not the invalid too-many-files
outcome the claim requires when the qualifying count exceeds
`maxFiles`. -/
theorem validate_capped_valid :
    validateIndexingOperation (fun _ => ["a.ts", "b.ts", "c.ts"])
      (fun _ => some 10) (fun _ _ => false) (fun _ p => p) "/root"
      { maxFileSize := 1000, excludePatterns := [],
        includeExtensions := [".ts"], maxFiles := 2 } =
      { valid := true, message := .ready 2, fileCount := 2 } ∧
    getFilesToIndex (fun _ => ["a.ts", "b.ts", "c.ts"])
      (fun _ => some 10) (fun _ _ => false) (fun _ p => p) "/root"
      { maxFileSize := 1000, excludePatterns := [],
        includeExtensions := [".ts"], maxFiles := 3 } =
      ["a.ts", "b.ts", "c.ts"] := by
  exact ⟨rfl, rfl⟩
